import Mathlib

/-!
# Verification of the conversational orchestration engine (Hackathon-phase_3)

Shallow embedding of the Phase-3 todo-chatbot backend:

* the relational data model follows `backend/migrations/001_initial_schema.sql`
  (tables `tasks`, `conversations`, `messages`, the `role` CHECK constraint,
  the `ON DELETE CASCADE` foreign key, and the `updated_at` trigger);
* the history query follows `specs/001-ai-chatbot-frontend/data-model.md`
  ("Get Conversation History": `ORDER BY created_at ASC`, all reads filtered
  by `user_id`);
* the MCP tools `add_task` / `complete_task` follow their Python sources in
  the repository's backend skill document (structured `success`/`error`
  dictionaries, never exceptions);
* the per-turn pipeline follows the repository's documented 7-step
  conversation flow (research.md "Conversation Flow (7 Steps)" and
  constitution Principle IV): receive, fetch history, build context,
  store user message, run agent with tools, store assistant response,
  return — the two message writes are separate, sequential steps.

Timestamps are modelled as naturals (`NOW()` of a turn's transaction is the
single value `t` passed to the turn), SERIAL columns as a `next…Id` counter.
-/

namespace Chatbot

/-- Message role; models the SQL CHECK constraint `role IN ('user','assistant')`
on `messages.role` (`001_initial_schema.sql`). -/
inductive Role where
  | user
  | assistant
deriving DecidableEq, Repr

/-- A row of the `tasks` table (`001_initial_schema.sql`). -/
structure Task where
  id : Nat
  user_id : String
  title : String
  description : Option String
  completed : Bool
  created_at : Nat
  updated_at : Nat
deriving DecidableEq, Repr

/-- A row of the `conversations` table (`001_initial_schema.sql`). -/
structure Conversation where
  id : Nat
  user_id : String
  created_at : Nat
  updated_at : Nat
deriving DecidableEq, Repr

/-- Optional structured payload returned by a tool, mirroring the `data`
dictionary of the Python tools (`add_task` returns id/title/description/
completed/created_at, `complete_task` returns id/title/completed). -/
structure TaskData where
  id : Nat
  title : String
  description : Option String := none
  completed : Bool
  created_at : Option Nat := none
deriving DecidableEq, Repr

/-- The standardized MCP tool response dictionary from the backend skill
document: `{"success": bool, "message": str, "data": dict|None,
"error": str|None}`. A failed tool call is a returned value, never an
exception. -/
structure ToolResult where
  success : Bool
  message : String
  data : Option TaskData := none
  error : Option String := none
deriving DecidableEq, Repr

/-- Arguments the reasoning layer supplies to a tool call (the `kwargs` of
the Python tools, restricted to the typed fields the embedded tools read). -/
structure ToolArgs where
  task_id : Option Nat := none
  title : Option String := none
  description : Option String := none
deriving DecidableEq, Repr

/-- One entry of the `tool_calls` JSONB column, per the validation rule in
`data-model.md`: `{"tool": …, "arguments": …, "result": …}`. -/
structure ToolCall where
  tool : String
  arguments : ToolArgs
  result : ToolResult
deriving DecidableEq, Repr

/-- A row of the `messages` table (`001_initial_schema.sql`): `tool_calls`
is nullable JSONB, `created_at` defaults to the transaction's `NOW()`. -/
structure Message where
  id : Nat
  conversation_id : Nat
  user_id : String
  role : Role
  content : String
  tool_calls : Option (List ToolCall)
  created_at : Nat
deriving DecidableEq, Repr

/-- The relational store. The `next…Id` counters model the SERIAL primary
key sequences, so row ids are assigned in insertion order. -/
structure DB where
  tasks : List Task
  conversations : List Conversation
  messages : List Message
  nextTaskId : Nat
  nextConvId : Nat
  nextMsgId : Nat
deriving DecidableEq, Repr

/-- The empty database, as created by the migration. -/
def DB.empty : DB := ⟨[], [], [], 1, 1, 1⟩

/-! ## Reads (Context Builder side)

`findConversation` models the owner-filtered conversation lookup mandated by
`data-model.md` ("All queries MUST include user_id filter"): a conversation
that exists but belongs to another user is invisible, exactly like one that
never existed. -/

/-- Owner-filtered lookup of a conversation row:
`SELECT * FROM conversations WHERE id = :cid AND user_id = :uid`. -/
def findConversation (db : DB) (uid : String) (cid : Nat) : Option Conversation :=
  db.conversations.find? fun c => c.id == cid && c.user_id == uid

/-- The raw rows of one conversation, before ordering:
`FROM messages m WHERE m.conversation_id = :conversation_id`. -/
def conversationRows (db : DB) (cid : Nat) : List Message :=
  db.messages.filter fun m => m.conversation_id == cid

/-- The comparison used by `ORDER BY m.created_at ASC` in the history query
of `data-model.md`. -/
def msgLe (m1 m2 : Message) : Prop := m1.created_at ≤ m2.created_at

instance : DecidableRel msgLe := fun a b => Nat.decLe a.created_at b.created_at

/-- Strict lexicographic order on `(created_at, id)`. -/
def msgLexLt (m1 m2 : Message) : Prop :=
  m1.created_at < m2.created_at ∨ (m1.created_at = m2.created_at ∧ m1.id < m2.id)

instance : DecidableRel msgLexLt := fun a b => by
  unfold msgLexLt; exact inferInstance

instance : IsTotal Message msgLe :=
  ⟨fun a b => Nat.le_total a.created_at b.created_at⟩

instance : IsTrans Message msgLe :=
  ⟨fun _ _ _ h1 h2 => Nat.le_trans h1 h2⟩

/-- What `ORDER BY m.created_at ASC` in the history query of
`data-model.md` guarantees, and nothing more: a legal query result is some
permutation of the conversation's rows that is non-decreasing in
`created_at`. The query does not order by `id`, so the relative order of
rows with equal `created_at` is not specified. -/
def HistoryResult (db : DB) (cid : Nat) (l : List Message) : Prop :=
  List.Perm l (conversationRows db cid) ∧ l.Pairwise msgLe

instance (db : DB) (cid : Nat) (l : List Message) :
    Decidable (HistoryResult db cid l) := by
  unfold HistoryResult; exact inferInstance

/-- The history reconstruction used inside the modelled pipeline: the rows
of the conversation sorted by `created_at`. This is one legal result of the
query (see `HistoryResult`); the store gives no tie-break guarantee beyond
it. -/
def getConversationHistory (db : DB) (cid : Nat) : List Message :=
  (conversationRows db cid).insertionSort msgLe

/-- Modelled from the spec: the Context Builder's truncation step is
implemented in the missing `backend/src/services/chat_service.py`; per
spec §4.1 it keeps "the most recent N messages …, oldest-first" when
assembling reasoning input. The stored history is not touched. -/
def buildContext (history : List Message) (window : Nat) : List Message :=
  history.drop (history.length - window)

/-! ## Capability providers (MCP tools)

`add_task` and `complete_task` are embedded from their Python sources in the
repository's backend MCP skill document. The `TaskService` calls they make
live in the missing `backend/src/services/task_service.py` and are modelled
from the repo's contract documents. -/

/-- Modelled from the spec: `TaskService.create` (missing
`backend/src/services/task_service.py`); inserts a task row owned by
`user_id` with a fresh SERIAL id, per the `tasks` schema. -/
def taskServiceCreate (db : DB) (uid : String) (title : String)
    (description : Option String) (t : Nat) : Task × DB :=
  let task : Task := ⟨db.nextTaskId, uid, title, description, false, t, t⟩
  (task, { db with tasks := db.tasks ++ [task], nextTaskId := db.nextTaskId + 1 })

/-- Modelled from the spec: `TaskService.mark_completed` (missing
`backend/src/services/task_service.py`); per `mcp-tools.md` a task of a
different user is treated exactly like a missing task (`None`), and
completing an already-completed task is idempotent. -/
def taskServiceMarkCompleted (db : DB) (task_id : Nat) (uid : String)
    (completed : Bool) : Option Task × DB :=
  match db.tasks.find? (fun tk => tk.id == task_id && tk.user_id == uid) with
  | none => (none, db)
  | some tk =>
      let tk2 := { tk with completed := completed }
      (some tk2,
        { db with
            tasks := db.tasks.map fun x =>
              if x.id == task_id && x.user_id == uid then tk2 else x })

/-- The `add_task` MCP tool, from its Python source: a missing or empty
(`not title` in Python) title yields the structured `invalid_input` error;
otherwise the task is created with the title stripped and an empty
description normalized to `None`, and a `success` dictionary is returned. -/
def add_task (db : DB) (uid : String) (args : ToolArgs) (t : Nat) :
    ToolResult × DB :=
  match args.title with
  | none =>
      (⟨false, "Title is required and must be a string", none, some "invalid_input"⟩, db)
  | some title =>
      if title = "" then
        (⟨false, "Title is required and must be a string", none, some "invalid_input"⟩, db)
      else
        let desc := match args.description with
          | none => none
          | some d => if d = "" then none else some d.trim
        let r := taskServiceCreate db uid title.trim desc t
        (⟨true, "Task \x27" ++ r.1.title ++ "\x27 created successfully!",
          some ⟨r.1.id, r.1.title, r.1.description, r.1.completed, some r.1.created_at⟩,
          none⟩, r.2)

/-- The `complete_task` MCP tool, from its Python source: a missing id (or
`0`, which is falsy in Python's `if not task_id`) yields `missing_task_id`;
a task that does not resolve for this user yields the structured
`task_not_found` error dictionary — returned as data, never raised;
otherwise the task is marked completed and a `success` dictionary returned. -/
def complete_task (db : DB) (uid : String) (args : ToolArgs) :
    ToolResult × DB :=
  match args.task_id with
  | none => (⟨false, "Task ID is required", none, some "missing_task_id"⟩, db)
  | some tid =>
      if tid = 0 then
        (⟨false, "Task ID is required", none, some "missing_task_id"⟩, db)
      else
        match taskServiceMarkCompleted db tid uid true with
        | (none, db2) =>
            (⟨false,
              "Task " ++ toString tid ++ " not found. Want me to show your current tasks?",
              none, some "task_not_found"⟩, db2)
        | (some tk, db2) =>
            (⟨true, "Task \x27" ++ tk.title ++ "\x27 marked as completed!",
              some ⟨tk.id, tk.title, none, tk.completed, none⟩, none⟩, db2)

/-- The Tool Dispatcher: resolves a capability name against the registry and
injects the authenticated principal into the call (the reasoning layer never
chooses the `user_id`). An unknown name produces a structured error result,
not a crash. `list_tasks`/`delete_task`/`update_task` read or mutate only
the `tasks` table and are not needed by any verified property, so the
modelled registry carries the two tools whose sources appear in the repo. -/
def dispatchTool (db : DB) (uid : String) (name : String) (args : ToolArgs)
    (t : Nat) : ToolResult × DB :=
  if name = "add_task" then add_task db uid args t
  else if name = "complete_task" then complete_task db uid args
  else (⟨false, "Unknown tool: " ++ name, none, some "unknown_tool"⟩, db)

/-- Execute one batch of requested tool calls in order, collecting the
tool-call records in the same order. -/
def dispatchAll (db : DB) (uid : String) (t : Nat) :
    List (String × ToolArgs) → DB × List ToolCall
  | [] => (db, [])
  | (name, args) :: rest =>
      let r := dispatchTool db uid name args t
      let tail := dispatchAll r.2 uid t rest
      (tail.1, ⟨name, args, r.1⟩ :: tail.2)

/-! ## Reasoning Adapter and the bounded agent loop -/

/-- Modelled from the spec: the external reasoning call (OpenAI Agents SDK,
not in the repository) returns, per spec §4.2, either a final answer or an
ordered list of tool requests; the external call may also fail or time out. -/
inductive AgentStep where
  | final (answer : String)
  | toolRequest (calls : List (String × ToolArgs))
  | unavailable

/-- A reasoning adapter: a stateless function of the assembled context and
the tool-call records accumulated so far in the current turn. -/
def Agent : Type := List Message → List ToolCall → AgentStep

/-- How the agent loop ended. -/
inductive LoopDecision where
  | final (answer : String)
  | unavailable
  | exceeded
deriving DecidableEq, Repr

/-- Result of the reasoning↔dispatch loop: the decision, the tool-call
records collected, the number of dispatch rounds executed, and the store
after any tool side effects. -/
structure LoopOutcome where
  decision : LoopDecision
  records : List ToolCall
  rounds : Nat
  db : DB

/-- Modelled from the spec: the reasoning↔dispatch loop of the missing agent
runner, as an explicit fuel-bounded recursion (spec §4.3/§4.5: "a hard
iteration bound, not open recursion"); exhausting the fuel ends the loop
with the `exceeded` decision. -/
def agentLoop (agent : Agent) (uid : String) (ctx : List Message) (t : Nat) :
    Nat → DB → List ToolCall → LoopOutcome
  | 0, db, acc => ⟨.exceeded, acc, 0, db⟩
  | fuel + 1, db, acc =>
      match agent ctx acc with
      | .final ans => ⟨.final ans, acc, 0, db⟩
      | .unavailable => ⟨.unavailable, acc, 0, db⟩
      | .toolRequest calls =>
          let step := dispatchAll db uid t calls
          let rest := agentLoop agent uid ctx t fuel step.1 (acc ++ step.2)
          { rest with rounds := rest.rounds + 1 }

/-- Engine configuration. Modelled from the spec: the loop bound is "a hard
bound (configurable, default small single-digit count)" (§4.3) and the
context window N is configured (§4.1). -/
structure Config where
  maxToolRounds : Nat := 5
  historyWindow : Nat := 50

/-- The default configuration. -/
def defaultConfig : Config := {}

/-! ## The per-turn pipeline (7-step conversation flow) -/

/-- The classified outcome of one turn, per spec §7 (the repo's documented
flow has no lease, hence no `ConversationBusy` outcome). -/
inductive TurnOutcome where
  | success (conversation_id : Nat) (answer : String) (tool_calls : List ToolCall)
  | emptyMessage
  | notFound
  | reasoningUnavailable
  | reasoningLoopExceeded
deriving DecidableEq, Repr

/-- Append one message row; the id comes from the SERIAL sequence and
`created_at` from the transaction's `NOW()` (= `t`). -/
def appendMessage (db : DB) (cid : Nat) (uid : String) (role : Role)
    (content : String) (tool_calls : Option (List ToolCall)) (t : Nat) : DB :=
  { db with
      messages := db.messages ++ [⟨db.nextMsgId, cid, uid, role, content, tool_calls, t⟩],
      nextMsgId := db.nextMsgId + 1 }

/-- Insert a fresh conversation row for `uid` (conversation auto-creation
for new sessions); both timestamps default to the transaction's `NOW()`. -/
def createConversation (db : DB) (uid : String) (t : Nat) : Conversation × DB :=
  let c : Conversation := ⟨db.nextConvId, uid, t, t⟩
  (c, { db with conversations := db.conversations ++ [c],
                nextConvId := db.nextConvId + 1 })

/-- The service's end-of-turn UPDATE of the conversation row combined with
the migration's `update_conversations_updated_at` trigger, which overwrites
`NEW.updated_at` with `NOW()`; within the committing transaction `NOW()` is
the same value `t` as the message defaults. Modelled from the spec for the
service side (the UPDATE statement lives in the missing service code). -/
def touchConversation (db : DB) (cid : Nat) (t : Nat) : DB :=
  { db with
      conversations := db.conversations.map fun c =>
        if c.id = cid then { c with updated_at := t } else c }

/-- Steps 2–7 of the 7-step flow, for an already-resolved conversation:
fetch history, build context, store the user message, run the agent with
tools, then — only if a final answer was produced — store the assistant
response (with its embedded tool-call records) and touch the conversation.
Modelled from the spec: the missing `chat_service.py`, following the order
documented in the repo's research document and constitution Principle IV;
a failing agent run ends the turn after the user message was stored, the
documents prescribing no rollback. -/
def processResolved (cfg : Config) (agent : Agent) (db : DB) (uid : String)
    (conv : Conversation) (msg : String) (t : Nat) : TurnOutcome × DB :=
  let history := getConversationHistory db conv.id
  let userMsg : Message := ⟨db.nextMsgId, conv.id, uid, .user, msg, none, t⟩
  let ctx := buildContext history cfg.historyWindow ++ [userMsg]
  let db1 := appendMessage db conv.id uid .user msg none t
  let loop := agentLoop agent uid ctx t cfg.maxToolRounds db1 []
  match loop.decision with
  | .final ans =>
      let db2 := appendMessage loop.db conv.id uid .assistant ans (some loop.records) t
      let db3 := touchConversation db2 conv.id t
      (.success conv.id ans loop.records, db3)
  | .unavailable => (.reasoningUnavailable, loop.db)
  | .exceeded => (.reasoningLoopExceeded, loop.db)

/-- One full turn of the engine (`POST /api/{user_id}/chat`): validate that
the message is non-empty, resolve the referenced conversation through the
owner-filtered lookup (or auto-create one), then run the 7-step flow.
Modelled from the spec for the missing `chat_service.py`/`chat.py`,
following the repo's documented flow and endpoint contracts; whitespace
normalization of the inbound message is not specified by the repo documents
and is not modelled. -/
def processTurn (cfg : Config) (agent : Agent) (db : DB) (uid : String)
    (cid? : Option Nat) (msg : String) (t : Nat) : TurnOutcome × DB :=
  if msg = "" then (.emptyMessage, db)
  else
    match cid? with
    | some cid =>
        match findConversation db uid cid with
        | none => (.notFound, db)
        | some conv => processResolved cfg agent db uid conv msg t
    | none =>
        let r := createConversation db uid t
        processResolved cfg agent r.2 uid r.1 msg t

/-! ## Schema-level operations (raw SQL against `001_initial_schema.sql`)

These model what the DDL itself enforces, independently of the service
layer: the NOT NULL foreign key on `messages.conversation_id` and its
`ON DELETE CASCADE` clause. -/

/-- A raw `INSERT INTO messages`: `conversation_id` is a NOT NULL column
with `REFERENCES conversations(id)`, so the insert succeeds only when the
parent conversation row exists. -/
def sqlInsertMessage (db : DB) (m : Message) : Option DB :=
  if db.conversations.any (fun c => c.id == m.conversation_id) then
    some { db with messages := db.messages ++ [m] }
  else none

/-- A raw `INSERT INTO conversations`. -/
def sqlInsertConversation (db : DB) (c : Conversation) : DB :=
  { db with conversations := db.conversations ++ [c] }

/-- `DELETE FROM conversations WHERE id = :cid`; the `ON DELETE CASCADE`
clause on `messages.conversation_id` removes the conversation's message
rows in the same statement. -/
def sqlDeleteConversation (db : DB) (cid : Nat) : DB :=
  { db with
      conversations := db.conversations.filter fun c => !(c.id == cid),
      messages := db.messages.filter fun m => !(m.conversation_id == cid) }

/-- One step of raw schema-level activity: inserting rows (messages only
through the foreign-key check), deleting a conversation (with cascade), or
the `updated_at` trigger firing on a conversation update. The schema offers
no UPDATE or DELETE on individual message rows. -/
inductive SchemaStep : DB → DB → Prop where
  | insertConversation (db : DB) (c : Conversation) :
      SchemaStep db (sqlInsertConversation db c)
  | insertMessage (db : DB) (m : Message) (db' : DB)
      (h : sqlInsertMessage db m = some db') : SchemaStep db db'
  | deleteConversation (db : DB) (cid : Nat) :
      SchemaStep db (sqlDeleteConversation db cid)
  | updateConversationTimestamp (db : DB) (cid t : Nat) :
      SchemaStep db (touchConversation db cid t)

/-- Every message row references an existing conversation row. -/
def NoOrphans (db : DB) : Prop :=
  ∀ m ∈ db.messages, ∃ c ∈ db.conversations, c.id = m.conversation_id

/-! ## Engine-level reachability -/

/-- One invocation of the turn pipeline, with arbitrary configuration,
reasoning adapter, principal, conversation reference, message and
transaction time. -/
def TurnStep (db db' : DB) : Prop :=
  ∃ cfg agent uid cid? msg t, (processTurn cfg agent db uid cid? msg t).2 = db'

/-- States reachable from `db` through turns of the engine — the only
writer the subsystem has. -/
def EngineReachable : DB → DB → Prop := Relation.ReflTransGen TurnStep

/-- The well-formedness invariant of the store used by the ordering
results: message rows appear in SERIAL id order with non-decreasing
`created_at`, and all ids are below the sequence counter. -/
def DBInv (db : DB) : Prop :=
  db.messages.Pairwise (fun a b => a.id < b.id ∧ a.created_at ≤ b.created_at) ∧
  ∀ m ∈ db.messages, m.id < db.nextMsgId

instance (db : DB) : Decidable (DBInv db) := by
  unfold DBInv; exact inferInstance

/-! ## Frame lemmas: tool execution touches only the `tasks` table -/

theorem taskServiceCreate_frame (db : DB) (uid title : String)
    (desc : Option String) (t : Nat) :
    (taskServiceCreate db uid title desc t).2.conversations = db.conversations ∧
    (taskServiceCreate db uid title desc t).2.messages = db.messages ∧
    (taskServiceCreate db uid title desc t).2.nextMsgId = db.nextMsgId :=
  ⟨rfl, rfl, rfl⟩

theorem taskServiceMarkCompleted_frame (db : DB) (tid : Nat) (uid : String)
    (c : Bool) :
    (taskServiceMarkCompleted db tid uid c).2.conversations = db.conversations ∧
    (taskServiceMarkCompleted db tid uid c).2.messages = db.messages ∧
    (taskServiceMarkCompleted db tid uid c).2.nextMsgId = db.nextMsgId := by
  unfold taskServiceMarkCompleted
  rcases h : db.tasks.find? (fun tk => tk.id == tid && tk.user_id == uid) with _ | tk <;>
    simp only [h] <;> exact ⟨by trivial, by trivial, by trivial⟩

theorem add_task_frame (db : DB) (uid : String) (args : ToolArgs) (t : Nat) :
    (add_task db uid args t).2.conversations = db.conversations ∧
    (add_task db uid args t).2.messages = db.messages ∧
    (add_task db uid args t).2.nextMsgId = db.nextMsgId := by
  unfold add_task
  rcases h : args.title with _ | title <;> simp only [h]
  · exact ⟨by trivial, by trivial, by trivial⟩
  · by_cases h2 : title = ""
    · simp only [if_pos h2]; exact ⟨by trivial, by trivial, by trivial⟩
    · simp only [if_neg h2]
      exact taskServiceCreate_frame db uid title.trim _ t

theorem complete_task_frame (db : DB) (uid : String) (args : ToolArgs) :
    (complete_task db uid args).2.conversations = db.conversations ∧
    (complete_task db uid args).2.messages = db.messages ∧
    (complete_task db uid args).2.nextMsgId = db.nextMsgId := by
  unfold complete_task
  rcases h : args.task_id with _ | tid <;> simp only [h]
  · exact ⟨by trivial, by trivial, by trivial⟩
  · by_cases h2 : tid = 0
    · simp only [if_pos h2]; exact ⟨by trivial, by trivial, by trivial⟩
    · simp only [if_neg h2]
      have hm := taskServiceMarkCompleted_frame db tid uid true
      rcases h3 : taskServiceMarkCompleted db tid uid true with ⟨_ | tk, db2⟩ <;>
        simp only [h3] <;> rw [h3] at hm <;> exact hm

theorem dispatchTool_frame (db : DB) (uid name : String) (args : ToolArgs)
    (t : Nat) :
    (dispatchTool db uid name args t).2.conversations = db.conversations ∧
    (dispatchTool db uid name args t).2.messages = db.messages ∧
    (dispatchTool db uid name args t).2.nextMsgId = db.nextMsgId := by
  unfold dispatchTool
  by_cases h1 : name = "add_task"
  · simp only [if_pos h1]; exact add_task_frame db uid args t
  · simp only [if_neg h1]
    by_cases h2 : name = "complete_task"
    · simp only [if_pos h2]; exact complete_task_frame db uid args
    · simp only [if_neg h2]; exact ⟨by trivial, by trivial, by trivial⟩

theorem dispatchAll_frame (uid : String) (t : Nat)
    (calls : List (String × ToolArgs)) :
    ∀ db : DB,
      (dispatchAll db uid t calls).1.conversations = db.conversations ∧
      (dispatchAll db uid t calls).1.messages = db.messages ∧
      (dispatchAll db uid t calls).1.nextMsgId = db.nextMsgId := by
  induction calls with
  | nil => intro db; exact ⟨rfl, rfl, rfl⟩
  | cons hd tl ih =>
      intro db
      obtain ⟨name, args⟩ := hd
      have h1 := dispatchTool_frame db uid name args t
      have h2 := ih (dispatchTool db uid name args t).2
      simp only [dispatchAll]
      exact ⟨h2.1.trans h1.1, h2.2.1.trans h1.2.1, h2.2.2.trans h1.2.2⟩

theorem agentLoop_frame (agent : Agent) (uid : String) (ctx : List Message)
    (t : Nat) :
    ∀ (fuel : Nat) (db : DB) (acc : List ToolCall),
      (agentLoop agent uid ctx t fuel db acc).db.conversations = db.conversations ∧
      (agentLoop agent uid ctx t fuel db acc).db.messages = db.messages ∧
      (agentLoop agent uid ctx t fuel db acc).db.nextMsgId = db.nextMsgId := by
  intro fuel
  induction fuel with
  | zero => intro db acc; exact ⟨rfl, rfl, rfl⟩
  | succ n ih =>
      intro db acc
      unfold agentLoop
      rcases h : agent ctx acc with ans | calls | _ <;> simp only [h]
      · exact ⟨by trivial, by trivial, by trivial⟩
      · have h1 := dispatchAll_frame uid t calls db
        have h2 := ih (dispatchAll db uid t calls).1 (acc ++ (dispatchAll db uid t calls).2)
        exact ⟨h2.1.trans h1.1, h2.2.1.trans h1.2.1, h2.2.2.trans h1.2.2⟩
      · exact ⟨by trivial, by trivial, by trivial⟩

/-! ## Characterization of one turn -/

/-- The user message row that step 4 of the flow inserts. -/
def userRow (db : DB) (cid : Nat) (uid msg : String) (t : Nat) : Message :=
  ⟨db.nextMsgId, cid, uid, .user, msg, none, t⟩

/-- The assistant message row that step 6 of the flow inserts on success. -/
def assistantRow (db : DB) (cid : Nat) (uid ans : String)
    (recs : List ToolCall) (t : Nat) : Message :=
  ⟨db.nextMsgId + 1, cid, uid, .assistant, ans, some recs, t⟩

theorem processResolved_spec (cfg : Config) (agent : Agent) (db : DB)
    (uid : String) (conv : Conversation) (msg : String) (t : Nat) :
    (∃ ans recs,
      (processResolved cfg agent db uid conv msg t).1 = .success conv.id ans recs ∧
      (processResolved cfg agent db uid conv msg t).2.messages =
        db.messages ++ [userRow db conv.id uid msg t, assistantRow db conv.id uid ans recs t] ∧
      (processResolved cfg agent db uid conv msg t).2.conversations =
        db.conversations.map
          (fun c => if c.id = conv.id then { c with updated_at := t } else c) ∧
      (processResolved cfg agent db uid conv msg t).2.nextMsgId = db.nextMsgId + 2)
    ∨
    (((processResolved cfg agent db uid conv msg t).1 = .reasoningUnavailable ∨
      (processResolved cfg agent db uid conv msg t).1 = .reasoningLoopExceeded) ∧
      (processResolved cfg agent db uid conv msg t).2.messages =
        db.messages ++ [userRow db conv.id uid msg t] ∧
      (processResolved cfg agent db uid conv msg t).2.conversations = db.conversations ∧
      (processResolved cfg agent db uid conv msg t).2.nextMsgId = db.nextMsgId + 1) := by
  have hf := agentLoop_frame agent uid
    (buildContext (getConversationHistory db conv.id) cfg.historyWindow ++
      [(⟨db.nextMsgId, conv.id, uid, .user, msg, none, t⟩ : Message)]) t
    cfg.maxToolRounds (appendMessage db conv.id uid .user msg none t) []
  simp only [processResolved]
  generalize hL : agentLoop agent uid
    (buildContext (getConversationHistory db conv.id) cfg.historyWindow ++
      [(⟨db.nextMsgId, conv.id, uid, .user, msg, none, t⟩ : Message)]) t
    cfg.maxToolRounds (appendMessage db conv.id uid .user msg none t) [] = loop
  rw [hL] at hf
  obtain ⟨dec, recs, rounds, ldb⟩ := loop
  simp only at hf
  rcases dec with ans | _ | _
  · refine Or.inl ⟨ans, recs, rfl, ?_, ?_, ?_⟩
    · simp [touchConversation, appendMessage, userRow, assistantRow,
        hf.2.1, hf.2.2]
    · simp [touchConversation, appendMessage, hf.1]
    · simp [touchConversation, appendMessage, hf.2.2]
  · refine Or.inr ⟨Or.inl rfl, ?_, ?_, ?_⟩
    · simp [appendMessage, userRow, hf.2.1]
    · simp [appendMessage, hf.1]
    · simp [appendMessage, hf.2.2]
  · refine Or.inr ⟨Or.inr rfl, ?_, ?_, ?_⟩
    · simp [appendMessage, userRow, hf.2.1]
    · simp [appendMessage, hf.1]
    · simp [appendMessage, hf.2.2]

theorem processTurn_some_eq (cfg : Config) (agent : Agent) (db : DB)
    (uid : String) (cid : Nat) (msg : String) (t : Nat) (conv : Conversation)
    (hmsg : ¬ msg = "") (hconv : findConversation db uid cid = some conv) :
    processTurn cfg agent db uid (some cid) msg t =
      processResolved cfg agent db uid conv msg t := by
  unfold processTurn
  rw [if_neg hmsg]
  simp only [hconv]

theorem processTurn_none_eq (cfg : Config) (agent : Agent) (db : DB)
    (uid : String) (msg : String) (t : Nat) (hmsg : ¬ msg = "") :
    processTurn cfg agent db uid none msg t =
      processResolved cfg agent (createConversation db uid t).2 uid
        (createConversation db uid t).1 msg t := by
  unfold processTurn
  rw [if_neg hmsg]

theorem processTurn_empty_eq (cfg : Config) (agent : Agent) (db : DB)
    (uid : String) (cid? : Option Nat) (msg : String) (t : Nat)
    (hmsg : msg = "") :
    processTurn cfg agent db uid cid? msg t = (.emptyMessage, db) := by
  unfold processTurn
  rw [if_pos hmsg]

theorem processTurn_notFound_eq (cfg : Config) (agent : Agent) (db : DB)
    (uid : String) (cid : Nat) (msg : String) (t : Nat)
    (hmsg : ¬ msg = "") (hc : findConversation db uid cid = none) :
    processTurn cfg agent db uid (some cid) msg t = (.notFound, db) := by
  unfold processTurn
  rw [if_neg hmsg]
  simp only [hc]

/-- Every turn, whatever its outcome, only ever appends to the `messages`
table: the previously committed rows survive unchanged and in order. -/
theorem processTurn_messages_prefix (cfg : Config) (agent : Agent) (db : DB)
    (uid : String) (cid? : Option Nat) (msg : String) (t : Nat) :
    db.messages <+: (processTurn cfg agent db uid cid? msg t).2.messages := by
  by_cases hmsg : msg = ""
  · rw [processTurn_empty_eq cfg agent db uid cid? msg t hmsg]
  · cases cid? with
    | some cid =>
        cases hc : findConversation db uid cid with
        | none =>
            rw [processTurn_notFound_eq cfg agent db uid cid msg t hmsg hc]
        | some conv =>
            rw [processTurn_some_eq cfg agent db uid cid msg t conv hmsg hc]
            rcases processResolved_spec cfg agent db uid conv msg t with
              ⟨ans, recs, _, hm, _, _⟩ | ⟨_, hm, _, _⟩ <;>
              rw [hm] <;> exact List.prefix_append _ _
    | none =>
        rw [processTurn_none_eq cfg agent db uid msg t hmsg]
        rcases processResolved_spec cfg agent (createConversation db uid t).2 uid
            (createConversation db uid t).1 msg t with
          ⟨ans, recs, _, hm, _, _⟩ | ⟨_, hm, _, _⟩ <;>
          rw [hm] <;> exact List.prefix_append _ _

/-- A turn referencing an existing conversation either leaves the store
untouched or appends a short tail of fresh message rows, all stamped with
the turn's timestamp and with SERIAL ids at and above the sequence value. -/
theorem processTurn_tail (cfg : Config) (agent : Agent) (db : DB)
    (uid : String) (cid2 : Nat) (msg : String) (t : Nat) :
    (processTurn cfg agent db uid (some cid2) msg t).2 = db ∨
    ∃ tail : List Message,
      (processTurn cfg agent db uid (some cid2) msg t).2.messages =
        db.messages ++ tail ∧
      tail.Pairwise (fun a b => a.id < b.id ∧ a.created_at ≤ b.created_at) ∧
      (∀ m ∈ tail, m.created_at = t) ∧
      (∀ m ∈ tail, db.nextMsgId ≤ m.id) ∧
      (∀ m ∈ tail, m.id < db.nextMsgId + tail.length) ∧
      (processTurn cfg agent db uid (some cid2) msg t).2.nextMsgId =
        db.nextMsgId + tail.length := by
  by_cases hmsg : msg = ""
  · rw [processTurn_empty_eq cfg agent db uid (some cid2) msg t hmsg]
    exact Or.inl rfl
  · cases hc : findConversation db uid cid2 with
    | none =>
        rw [processTurn_notFound_eq cfg agent db uid cid2 msg t hmsg hc]
        exact Or.inl rfl
    | some conv =>
        rw [processTurn_some_eq cfg agent db uid cid2 msg t conv hmsg hc]
        rcases processResolved_spec cfg agent db uid conv msg t with
          ⟨ans, recs, _, hm, _, hn⟩ | ⟨_, hm, _, hn⟩
        · refine Or.inr ⟨[userRow db conv.id uid msg t,
            assistantRow db conv.id uid ans recs t], hm, ?_, ?_, ?_, ?_, ?_⟩
          · refine List.pairwise_cons.mpr ⟨?_, List.pairwise_singleton _ _⟩
            intro b hb
            simp only [List.mem_singleton] at hb
            subst hb
            exact ⟨Nat.lt_succ_self _, Nat.le_refl _⟩
          · intro m hm2
            simp only [List.mem_cons, List.not_mem_nil, or_false] at hm2
            rcases hm2 with rfl | rfl <;> rfl
          · intro m hm2
            simp only [List.mem_cons, List.not_mem_nil, or_false] at hm2
            rcases hm2 with rfl | rfl
            · exact Nat.le_refl _
            · exact Nat.le_succ _
          · intro m hm2
            simp only [List.mem_cons, List.not_mem_nil, or_false] at hm2
            rcases hm2 with rfl | rfl <;>
              simp only [userRow, assistantRow, List.length_cons, List.length_nil] <;>
              omega
          · simpa using hn
        · refine Or.inr ⟨[userRow db conv.id uid msg t], hm,
            List.pairwise_singleton _ _, ?_, ?_, ?_, ?_⟩
          · intro m hm2
            simp only [List.mem_singleton] at hm2
            subst hm2; rfl
          · intro m hm2
            simp only [List.mem_singleton] at hm2
            subst hm2; exact Nat.le_refl _
          · intro m hm2
            simp only [List.mem_singleton] at hm2
            subst hm2; simp [userRow]
          · simpa using hn

/-! ## Ordering of stored history -/

theorem conversationRows_pairwise (db : DB) (cid : Nat) (hinv : DBInv db) :
    (conversationRows db cid).Pairwise
      (fun a b => a.id < b.id ∧ a.created_at ≤ b.created_at) :=
  hinv.1.filter _

theorem conversationRows_sorted (db : DB) (cid : Nat) (hinv : DBInv db) :
    List.Sorted msgLe (conversationRows db cid) :=
  (conversationRows_pairwise db cid hinv).imp (fun h => h.2)

/-! ## Loop bound -/

theorem agentLoop_rounds_le (agent : Agent) (uid : String) (ctx : List Message)
    (t : Nat) :
    ∀ (fuel : Nat) (db : DB) (acc : List ToolCall),
      (agentLoop agent uid ctx t fuel db acc).rounds ≤ fuel := by
  intro fuel
  induction fuel with
  | zero => intro db acc; exact Nat.le_refl 0
  | succ n ih =>
      intro db acc
      unfold agentLoop
      rcases h : agent ctx acc with ans | calls | _ <;> simp only [h]
      · exact Nat.zero_le _
      · exact Nat.succ_le_succ (ih _ _)
      · exact Nat.zero_le _

theorem agentLoop_exceeded (agent : Agent) (uid : String) (ctx : List Message)
    (t : Nat)
    (hloopy : ∀ c recs, ∃ calls, agent c recs = .toolRequest calls) :
    ∀ (fuel : Nat) (db : DB) (acc : List ToolCall),
      (agentLoop agent uid ctx t fuel db acc).decision = .exceeded := by
  intro fuel
  induction fuel with
  | zero => intro db acc; rfl
  | succ n ih =>
      intro db acc
      obtain ⟨calls, hc⟩ := hloopy ctx acc
      unfold agentLoop
      simp only [hc]
      exact ih _ _

/-! ## A two-phase reasoning adapter: one tool batch, then a final answer -/

/-- A reasoning adapter that requests exactly one tool call and, once its
record is in the accumulated context, produces a final answer — the shape of
the spec's `complete_item`-with-unknown-id scenario. -/
def oneToolAgent (name : String) (args : ToolArgs) (answer : String) : Agent :=
  fun _ recs => if recs.isEmpty then .toolRequest [(name, args)] else .final answer

theorem agentLoop_oneTool (name : String) (args : ToolArgs) (ans : String)
    (uid : String) (ctx : List Message) (t : Nat) (db : DB) (res : ToolResult)
    (hdisp : dispatchTool db uid name args t = (res, db)) (fuel : Nat) :
    agentLoop (oneToolAgent name args ans) uid ctx t (fuel + 2) db [] =
      ⟨.final ans, [⟨name, args, res⟩], 1, db⟩ := by
  have h1 : dispatchAll db uid t [(name, args)] =
      (db, [⟨name, args, res⟩]) := by
    simp only [dispatchAll, hdisp]
  show agentLoop (oneToolAgent name args ans) uid ctx t (fuel + 1 + 1) db [] = _
  unfold agentLoop
  simp only [oneToolAgent, List.isEmpty_nil, if_pos, h1]
  unfold agentLoop
  simp only [List.isEmpty_cons, List.nil_append, if_neg]
  rfl

/-! ## Referential integrity under schema-level steps -/

theorem schemaStep_noOrphans (db db2 : DB) (h : SchemaStep db db2)
    (hno : NoOrphans db) : NoOrphans db2 := by
  cases h with
  | insertConversation c =>
      intro m hm
      obtain ⟨c2, hc2, he⟩ := hno m hm
      exact ⟨c2, List.mem_append_left _ hc2, he⟩
  | insertMessage m0 db2' hins =>
      unfold sqlInsertMessage at hins
      by_cases hex : db.conversations.any (fun c => c.id == m0.conversation_id)
      · rw [if_pos hex] at hins
        obtain ⟨c0, hc0, hc0id⟩ := List.any_eq_true.mp hex
        injection hins with hins
        subst hins
        intro m hm
        rcases List.mem_append.mp hm with hold | hnew
        · exact hno m hold
        · simp only [List.mem_singleton] at hnew
          subst hnew
          exact ⟨c0, hc0, beq_iff_eq.mp hc0id⟩
      · rw [if_neg hex] at hins
        cases hins
  | deleteConversation cid =>
      intro m hm
      have hm2 := List.mem_filter.mp hm
      obtain ⟨c, hc, he⟩ := hno m hm2.1
      refine ⟨c, List.mem_filter.mpr ⟨hc, ?_⟩, he⟩
      have hne : ¬ m.conversation_id = cid := by
        simpa using hm2.2
      simp [he, hne]
  | updateConversationTimestamp cid t =>
      intro m hm
      obtain ⟨c, hc, he⟩ := hno m hm
      refine ⟨if c.id = cid then { c with updated_at := t } else c,
        List.mem_map_of_mem _ hc, ?_⟩
      by_cases hcc : c.id = cid <;> simp [hcc] <;> omega
/-! ## Concrete adapters and stores used in closed statements -/

/-- A reasoning adapter that immediately produces a final answer. -/
def finalAgent (ans : String) : Agent := fun _ _ => .final ans

/-- A reasoning adapter whose external call always fails. -/
def unavailableAgent : Agent := fun _ _ => .unavailable

/-- A reasoning adapter that requests a tool batch on every invocation. -/
def loopingAgent : Agent :=
  fun _ _ => .toolRequest [("add_task", { title := some "x" })]

/-- A store holding one conversation owned by `alice` and no messages. -/
def oneConvDB : DB := ⟨[], [⟨1, "alice", 10, 10⟩], [], 1, 2, 1⟩

/-- A store holding one conversation owned by `bob` and no messages. -/
def bobConvDB : DB := ⟨[], [⟨7, "bob", 5, 5⟩], [], 1, 8, 1⟩

/-! ## C1 -/

/-- C1 counterexample: a turn whose reasoning call fails ends as
`ReasoningUnavailable`, yet exactly one of the turn's two messages — the
user message stored at step 4 of the flow — is visible afterwards, and no
assistant message is. An execution thus leaves exactly one of the two
messages persisted, refuting the claimed atomicity. -/
theorem turn_commit_not_atomic_cex :
    (processTurn defaultConfig unavailableAgent oneConvDB "alice" (some 1) "hello" 20).1 =
      TurnOutcome.reasoningUnavailable ∧
    (processTurn defaultConfig unavailableAgent oneConvDB "alice" (some 1) "hello" 20).2.messages =
      [⟨1, 1, "alice", Role.user, "hello", none, 20⟩] ∧
    (processTurn defaultConfig unavailableAgent oneConvDB "alice" (some 1) "hello" 20).2.messages.countP
      (fun m => m.role == Role.assistant) = 0 := by
  decide

/-- C1 (amended): persistence of a turn is sequential, not atomic. A turn
on a resolved conversation either commits fully — the user message and the
assistant message (with its embedded tool-call records) both become
visible, in order — or fails at the reasoning step after the user message
was already stored, leaving exactly the user message persisted. -/
theorem turn_commit_characterization (cfg : Config) (agent : Agent) (db : DB)
    (uid : String) (cid : Nat) (msg : String) (t : Nat) (conv : Conversation)
    (hmsg : ¬ msg = "") (hconv : findConversation db uid cid = some conv) :
    (∃ ans recs,
      (processTurn cfg agent db uid (some cid) msg t).1 =
        TurnOutcome.success conv.id ans recs ∧
      (processTurn cfg agent db uid (some cid) msg t).2.messages =
        db.messages ++ [userRow db conv.id uid msg t,
          assistantRow db conv.id uid ans recs t])
    ∨
    (((processTurn cfg agent db uid (some cid) msg t).1 =
        TurnOutcome.reasoningUnavailable ∨
      (processTurn cfg agent db uid (some cid) msg t).1 =
        TurnOutcome.reasoningLoopExceeded) ∧
      (processTurn cfg agent db uid (some cid) msg t).2.messages =
        db.messages ++ [userRow db conv.id uid msg t]) := by
  rw [processTurn_some_eq cfg agent db uid cid msg t conv hmsg hconv]
  rcases processResolved_spec cfg agent db uid conv msg t with
    ⟨ans, recs, h1, h2, _, _⟩ | ⟨h1, h2, _, _⟩
  · exact Or.inl ⟨ans, recs, h1, h2⟩
  · exact Or.inr ⟨h1, h2⟩

/-- C1 witness: the characterization applied to a concrete committing turn. -/
theorem turn_commit_characterization_witness :
    (¬ ("hi" : String) = "") ∧
    findConversation oneConvDB "alice" 1 = some ⟨1, "alice", 10, 10⟩ ∧
    ((∃ ans recs,
      (processTurn defaultConfig (finalAgent "ok") oneConvDB "alice" (some 1) "hi" 20).1 =
        TurnOutcome.success 1 ans recs ∧
      (processTurn defaultConfig (finalAgent "ok") oneConvDB "alice" (some 1) "hi" 20).2.messages =
        oneConvDB.messages ++ [userRow oneConvDB 1 "alice" "hi" 20,
          assistantRow oneConvDB 1 "alice" ans recs 20])
    ∨
    (((processTurn defaultConfig (finalAgent "ok") oneConvDB "alice" (some 1) "hi" 20).1 =
        TurnOutcome.reasoningUnavailable ∨
      (processTurn defaultConfig (finalAgent "ok") oneConvDB "alice" (some 1) "hi" 20).1 =
        TurnOutcome.reasoningLoopExceeded) ∧
      (processTurn defaultConfig (finalAgent "ok") oneConvDB "alice" (some 1) "hi" 20).2.messages =
        oneConvDB.messages ++ [userRow oneConvDB 1 "alice" "hi" 20])) :=
  ⟨by decide, by decide,
    turn_commit_characterization defaultConfig (finalAgent "ok") oneConvDB "alice" 1
      "hi" 20 ⟨1, "alice", 10, 10⟩ (by decide) (by decide)⟩

/-! ## C2 -/

/-- C2 counterexample: a turn that exhausts the tool-call bound ends as
`ReasoningLoopExceeded`, but the referenced conversation's storage is not
unchanged: the user message persisted at step 4 remains. -/
theorem failed_turn_storage_changed_cex :
    (processTurn defaultConfig loopingAgent bobConvDB "bob" (some 7) "loop" 9).1 =
      TurnOutcome.reasoningLoopExceeded ∧
    (processTurn defaultConfig loopingAgent bobConvDB "bob" (some 7) "loop" 9).2.messages ≠
      bobConvDB.messages := by
  decide

/-- C2 (amended): a turn that fails before step 4 (empty message, or a
conversation that does not resolve for the principal) leaves storage
unchanged; a turn that ends in `ReasoningUnavailable` or
`ReasoningLoopExceeded` leaves exactly the stored user message behind —
no assistant message and no conversation-metadata update. The repo's flow
has no lease, so no turn ends in `ConversationBusy`. -/
theorem failed_turn_frame (cfg : Config) (agent : Agent) (db : DB)
    (uid : String) (cid : Nat) (msg : String) (t : Nat) (conv : Conversation)
    (hmsg : ¬ msg = "") (hconv : findConversation db uid cid = some conv) :
    (((processTurn cfg agent db uid (some cid) msg t).1 =
        TurnOutcome.reasoningUnavailable ∨
      (processTurn cfg agent db uid (some cid) msg t).1 =
        TurnOutcome.reasoningLoopExceeded) →
      (processTurn cfg agent db uid (some cid) msg t).2.messages =
        db.messages ++ [userRow db conv.id uid msg t] ∧
      (processTurn cfg agent db uid (some cid) msg t).2.conversations =
        db.conversations) ∧
    (∀ cid0, findConversation db uid cid0 = none →
      processTurn cfg agent db uid (some cid0) msg t = (.notFound, db)) ∧
    (∀ msg0 : String, msg0 = "" →
      processTurn cfg agent db uid (some cid) msg0 t = (.emptyMessage, db)) := by
  refine ⟨?_, ?_, ?_⟩
  · intro hfail
    rw [processTurn_some_eq cfg agent db uid cid msg t conv hmsg hconv] at hfail ⊢
    rcases processResolved_spec cfg agent db uid conv msg t with
      ⟨ans, recs, h1, _, _, _⟩ | ⟨_, h2, h3, _⟩
    · rw [h1] at hfail
      rcases hfail with h | h <;> simp at h
    · exact ⟨h2, h3⟩
  · intro cid0 hc0
    exact processTurn_notFound_eq cfg agent db uid cid0 msg t hmsg hc0
  · intro msg0 hm0
    exact processTurn_empty_eq cfg agent db uid (some cid) msg0 t hm0

/-- C2 witness: the frame conditions applied to a concrete failing turn. -/
theorem failed_turn_frame_witness :
    (¬ ("hey" : String) = "") ∧
    findConversation bobConvDB "bob" 7 = some ⟨7, "bob", 5, 5⟩ ∧
    ((((processTurn defaultConfig unavailableAgent bobConvDB "bob" (some 7) "hey" 9).1 =
        TurnOutcome.reasoningUnavailable ∨
      (processTurn defaultConfig unavailableAgent bobConvDB "bob" (some 7) "hey" 9).1 =
        TurnOutcome.reasoningLoopExceeded) →
      (processTurn defaultConfig unavailableAgent bobConvDB "bob" (some 7) "hey" 9).2.messages =
        bobConvDB.messages ++ [userRow bobConvDB 7 "bob" "hey" 9] ∧
      (processTurn defaultConfig unavailableAgent bobConvDB "bob" (some 7) "hey" 9).2.conversations =
        bobConvDB.conversations) ∧
    (∀ cid0, findConversation bobConvDB "bob" cid0 = none →
      processTurn defaultConfig unavailableAgent bobConvDB "bob" (some cid0) "hey" 9 =
        (.notFound, bobConvDB)) ∧
    (∀ msg0 : String, msg0 = "" →
      processTurn defaultConfig unavailableAgent bobConvDB "bob" (some 7) msg0 9 =
        (.emptyMessage, bobConvDB))) :=
  ⟨by decide, by decide,
    failed_turn_frame defaultConfig unavailableAgent bobConvDB "bob" 7 "hey" 9
      ⟨7, "bob", 5, 5⟩ (by decide) (by decide)⟩

/-! ## C3 -/

/-- C3: a turn submitted by principal `p1` referencing a conversation owned
by a different principal `p2` yields `NotFound` with the store untouched,
and the full response is identical to the one `p1` gets for a conversation
id that never existed — the two cases are indistinguishable. -/
theorem isolation_notFound_indistinguishable (cfg : Config) (agent : Agent)
    (db : DB) (p1 p2 : String) (cid cid2 : Nat) (msg : String) (t : Nat)
    (hmsg : ¬ msg = "")
    (hne : p1 ≠ p2)
    (howner : ∀ c ∈ db.conversations, c.id = cid → c.user_id = p2)
    (hghost : ∀ c ∈ db.conversations, c.id ≠ cid2) :
    processTurn cfg agent db p1 (some cid) msg t = (.notFound, db) ∧
    processTurn cfg agent db p1 (some cid2) msg t = (.notFound, db) := by
  have h1 : findConversation db p1 cid = none := by
    apply List.find?_eq_none.mpr
    intro c hc
    simp only [Bool.and_eq_true, beq_iff_eq, not_and]
    intro hid hu
    exact absurd (hu.symm.trans (howner c hc hid)) hne
  have h2 : findConversation db p1 cid2 = none := by
    apply List.find?_eq_none.mpr
    intro c hc
    simp only [Bool.and_eq_true, beq_iff_eq, not_and]
    intro hid _
    exact absurd hid (hghost c hc)
  exact ⟨processTurn_notFound_eq cfg agent db p1 cid msg t hmsg h1,
         processTurn_notFound_eq cfg agent db p1 cid2 msg t hmsg h2⟩

/-- C3 witness: isolation applied to a concrete store: `alice` probing
`bob`'s conversation 7 and the never-created id 99 gets the same answer. -/
theorem isolation_notFound_indistinguishable_witness :
    (¬ ("peek" : String) = "") ∧
    ("alice" : String) ≠ "bob" ∧
    (∀ c ∈ bobConvDB.conversations, c.id = 7 → c.user_id = "bob") ∧
    (∀ c ∈ bobConvDB.conversations, c.id ≠ 99) ∧
    (processTurn defaultConfig (finalAgent "ok") bobConvDB "alice" (some 7) "peek" 9 =
      (.notFound, bobConvDB) ∧
    processTurn defaultConfig (finalAgent "ok") bobConvDB "alice" (some 99) "peek" 9 =
      (.notFound, bobConvDB)) :=
  ⟨by decide, by decide, by decide, by decide,
    isolation_notFound_indistinguishable defaultConfig (finalAgent "ok") bobConvDB
      "alice" "bob" 7 99 "peek" 9 (by decide) (by decide) (by decide) (by decide)⟩

/-! ## C4 -/

/-- A store with two messages sharing a timestamp, used to exercise the
behaviour of the query on equal `created_at`. -/
def tieDB : DB :=
  ⟨[], [⟨1, "alice", 5, 5⟩],
   [⟨1, 1, "alice", Role.user, "a", none, 5⟩,
    ⟨2, 1, "alice", Role.assistant, "b", none, 5⟩], 1, 2, 3⟩

/-- C4 counterexample: on a well-formed store holding two messages with
equal `created_at`, the history query's contract (`ORDER BY created_at
ASC`, no `id` column) admits both orders of the tied rows as legal
results — in particular a result that is not ordered by `(created_at, id)`.
The claimed deterministic `id` tie-break is not implemented by the query,
so the Context Builder is not guaranteed to return exactly that order. -/
theorem history_tie_order_unspecified_cex :
    DBInv tieDB ∧
    HistoryResult tieDB 1
      [⟨2, 1, "alice", Role.assistant, "b", none, 5⟩,
       ⟨1, 1, "alice", Role.user, "a", none, 5⟩] ∧
    ¬ ([(⟨2, 1, "alice", Role.assistant, "b", none, 5⟩ : Message),
        ⟨1, 1, "alice", Role.user, "a", none, 5⟩].Pairwise msgLexLt) ∧
    HistoryResult tieDB 1
      [⟨1, 1, "alice", Role.user, "a", none, 5⟩,
       ⟨2, 1, "alice", Role.assistant, "b", none, 5⟩] ∧
    ([(⟨2, 1, "alice", Role.assistant, "b", none, 5⟩ : Message),
      ⟨1, 1, "alice", Role.user, "a", none, 5⟩] ≠
     [⟨1, 1, "alice", Role.user, "a", none, 5⟩,
      ⟨2, 1, "alice", Role.assistant, "b", none, 5⟩]) := by
  decide

/-- C4 (amended): message storage is append-only, so the stored rows of a
conversation are strictly totally ordered by `(created_at, id)` and the
order of committed rows never changes after a further turn; the history
query returns those rows sorted by `created_at` ascending — which fixes the
timestamp sequence of every legal result, and the modelled builder returns
one such legal result — but the query does not order by `id`, so for rows
with equal `created_at` the relative order is unspecified: no deterministic
id tie-break is implemented. -/
theorem history_query_order_characterization (cfg : Config) (agent : Agent)
    (db : DB) (uid : String) (cid cid2 : Nat) (msg : String) (t : Nat)
    (hinv : DBInv db) (hclock : ∀ m ∈ db.messages, m.created_at ≤ t) :
    (conversationRows db cid).Pairwise msgLexLt ∧
    (∀ l, HistoryResult db cid l →
      l.map Message.created_at =
        (conversationRows db cid).map Message.created_at) ∧
    HistoryResult db cid (getConversationHistory db cid) ∧
    conversationRows db cid <+:
      conversationRows (processTurn cfg agent db uid (some cid2) msg t).2 cid ∧
    DBInv (processTurn cfg agent db uid (some cid2) msg t).2 := by
  refine ⟨?_, ?_, ⟨List.perm_insertionSort msgLe _, List.sorted_insertionSort msgLe _⟩, ?_⟩
  · refine (conversationRows_pairwise db cid hinv).imp ?_
    intro a b h
    rcases Nat.lt_or_ge a.created_at b.created_at with hlt | hge
    · exact Or.inl hlt
    · exact Or.inr ⟨Nat.le_antisymm h.2 hge, h.1⟩
  · intro l hl
    have hperm : List.Perm (l.map Message.created_at)
        ((conversationRows db cid).map Message.created_at) := hl.1.map _
    have hs1 : (l.map Message.created_at).Sorted (· ≤ ·) :=
      hl.2.map Message.created_at (fun _ _ h => h)
    have hs2 : ((conversationRows db cid).map Message.created_at).Sorted (· ≤ ·) :=
      (conversationRows_sorted db cid hinv).map Message.created_at (fun _ _ h => h)
    exact List.eq_of_perm_of_sorted hperm hs1 hs2
  · rcases processTurn_tail cfg agent db uid cid2 msg t with
      heq | ⟨tail, hm, hpw, hct, hlo, hhi, hn⟩
    · rw [heq]
      exact ⟨List.prefix_rfl, hinv⟩
    · constructor
      · unfold conversationRows
        rw [hm, List.filter_append]
        exact List.prefix_append _ _
      · constructor
        · rw [hm]
          refine List.pairwise_append.mpr ⟨hinv.1, hpw, ?_⟩
          intro a ha b hb
          exact ⟨lt_of_lt_of_le (hinv.2 a ha) (hlo b hb),
            le_of_le_of_eq (hclock a ha) (hct b hb).symm⟩
        · intro m hm2
          rw [hm] at hm2
          rw [hn]
          rcases List.mem_append.mp hm2 with hold | hnew
          · exact lt_of_lt_of_le (hinv.2 m hold) (Nat.le_add_right _ _)
          · exact hhi m hnew

/-- C4 witness: the amended characterization applied to a concrete store
holding a timestamp tie, across a concrete committing turn. -/
theorem history_query_order_characterization_witness :
    DBInv tieDB ∧
    (∀ m ∈ tieDB.messages, m.created_at ≤ 9) ∧
    ((conversationRows tieDB 1).Pairwise msgLexLt ∧
    (∀ l, HistoryResult tieDB 1 l →
      l.map Message.created_at = (conversationRows tieDB 1).map Message.created_at) ∧
    HistoryResult tieDB 1 (getConversationHistory tieDB 1) ∧
    conversationRows tieDB 1 <+:
      conversationRows
        (processTurn defaultConfig (finalAgent "ok") tieDB "alice" (some 1) "hi" 9).2 1 ∧
    DBInv (processTurn defaultConfig (finalAgent "ok") tieDB "alice" (some 1) "hi" 9).2) :=
  ⟨by decide, by decide,
    history_query_order_characterization defaultConfig (finalAgent "ok") tieDB
      "alice" 1 1 "hi" 9 (by decide) (by decide)⟩

/-! ## C5 -/

/-- C5: messages are write-once. The engine's only writer is the turn
pipeline, and across any sequence of turns the previously committed message
rows survive as an unchanged prefix: every committed message — with its
role, content, tool-call records and timestamp — is present, unmodified and
in place, in every later reachable state. -/
theorem messages_immutable_reachable (db db2 : DB) (h : EngineReachable db db2) :
    db.messages <+: db2.messages ∧
    ∀ m ∈ db.messages, m ∈ db2.messages := by
  have hpre : db.messages <+: db2.messages := by
    induction h with
    | refl => exact List.prefix_rfl
    | tail h1 h2 ih =>
        rcases h2 with ⟨cfg, agent, uid, cid?, msg, t, heq⟩
        exact ih.trans (heq ▸ processTurn_messages_prefix cfg agent _ uid cid? msg t)
  exact ⟨hpre, fun m hm => hpre.subset hm⟩

/-- C5 witness: immutability across a concrete committed turn. -/
theorem messages_immutable_reachable_witness :
    EngineReachable tieDB
      (processTurn defaultConfig (finalAgent "ok") tieDB "alice" (some 1) "hi" 9).2 ∧
    (tieDB.messages <+:
      (processTurn defaultConfig (finalAgent "ok") tieDB "alice" (some 1) "hi" 9).2.messages ∧
    ∀ m ∈ tieDB.messages,
      m ∈ (processTurn defaultConfig (finalAgent "ok") tieDB "alice" (some 1) "hi" 9).2.messages) :=
  ⟨Relation.ReflTransGen.single
      ⟨defaultConfig, finalAgent "ok", "alice", some 1, "hi", 9, rfl⟩,
    messages_immutable_reachable tieDB _
      (Relation.ReflTransGen.single
        ⟨defaultConfig, finalAgent "ok", "alice", some 1, "hi", 9, rfl⟩)⟩

/-! ## C6 -/

/-- C6 counterexample: a turn that fails at the reasoning step appends its
user message (timestamp 30) while the conversation row keeps
`updated_at = 10` — no conversation UPDATE is issued on that append, so the
trigger never fires: `updated_at` is not updated on every appended message. -/
theorem updated_at_not_on_every_append_cex :
    (processTurn defaultConfig unavailableAgent oneConvDB "alice" (some 1) "late" 30).2.messages =
      [⟨1, 1, "alice", Role.user, "late", none, 30⟩] ∧
    (processTurn defaultConfig unavailableAgent oneConvDB "alice" (some 1) "late" 30).2.conversations =
      [⟨1, "alice", 10, 10⟩] := by
  decide

/-- C6 (amended): `updated_at` is monotonically non-decreasing across all
turn outcomes, and a committed turn sets the conversation's `updated_at` to
the turn's timestamp, which equals the `created_at` of that turn's
assistant message (trigger `NOW()` and column default share the committing
transaction). The user message of a turn that subsequently fails at the
reasoning step is, however, appended without an `updated_at` update. -/
theorem conversation_updated_at_monotone (cfg : Config) (agent : Agent)
    (db : DB) (uid : String) (cid : Nat) (msg : String) (t : Nat)
    (conv : Conversation)
    (hmsg : ¬ msg = "") (hconv : findConversation db uid cid = some conv)
    (hclock : ∀ c ∈ db.conversations, c.updated_at ≤ t) :
    (∀ c ∈ db.conversations,
      ∃ c2 ∈ (processTurn cfg agent db uid (some cid) msg t).2.conversations,
        c2.id = c.id ∧ c2.user_id = c.user_id ∧ c.updated_at ≤ c2.updated_at) ∧
    (∀ ans recs,
      (processTurn cfg agent db uid (some cid) msg t).1 =
        TurnOutcome.success conv.id ans recs →
      ({ conv with updated_at := t } : Conversation) ∈
        (processTurn cfg agent db uid (some cid) msg t).2.conversations ∧
      (processTurn cfg agent db uid (some cid) msg t).2.messages =
        db.messages ++ [userRow db conv.id uid msg t,
          assistantRow db conv.id uid ans recs t] ∧
      (assistantRow db conv.id uid ans recs t).created_at = t) := by
  rw [processTurn_some_eq cfg agent db uid cid msg t conv hmsg hconv]
  have hmem : conv ∈ db.conversations := List.mem_of_find?_eq_some hconv
  rcases processResolved_spec cfg agent db uid conv msg t with
    ⟨ans0, recs0, h1, h2, h3, _⟩ | ⟨h1, h2, h3, _⟩
  · constructor
    · intro c hc
      refine ⟨if c.id = conv.id then { c with updated_at := t } else c, ?_, ?_⟩
      · rw [h3]
        exact List.mem_map_of_mem _ hc
      · by_cases hcc : c.id = conv.id
        · simp only [if_pos hcc]
          exact ⟨by trivial, by trivial, hclock c hc⟩
        · simp only [if_neg hcc]
          exact ⟨by trivial, by trivial, by trivial⟩
    · intro ans recs hsucc
      rw [h1] at hsucc
      injection hsucc with hcid ha hr
      subst ha
      subst hr
      refine ⟨?_, h2, rfl⟩
      rw [h3]
      have hx := List.mem_map_of_mem
        (fun c => if c.id = conv.id then { c with updated_at := t } else c) hmem
      simpa using hx
  · constructor
    · intro c hc
      refine ⟨c, ?_, rfl, rfl, Nat.le_refl _⟩
      rw [h3]
      exact hc
    · intro ans recs hsucc
      rcases h1 with h | h <;> rw [h] at hsucc <;> simp at hsucc

/-- C6 witness: the monotonicity and commit-equality applied to a concrete
committing turn (`updated_at` goes from 10 to 20, the assistant row's
`created_at`). -/
theorem conversation_updated_at_monotone_witness :
    (¬ ("hi" : String) = "") ∧
    findConversation oneConvDB "alice" 1 = some ⟨1, "alice", 10, 10⟩ ∧
    (∀ c ∈ oneConvDB.conversations, c.updated_at ≤ 20) ∧
    ((∀ c ∈ oneConvDB.conversations,
      ∃ c2 ∈ (processTurn defaultConfig (finalAgent "ok") oneConvDB "alice" (some 1) "hi" 20).2.conversations,
        c2.id = c.id ∧ c2.user_id = c.user_id ∧ c.updated_at ≤ c2.updated_at) ∧
    (∀ ans recs,
      (processTurn defaultConfig (finalAgent "ok") oneConvDB "alice" (some 1) "hi" 20).1 =
        TurnOutcome.success 1 ans recs →
      ({ (⟨1, "alice", 10, 10⟩ : Conversation) with updated_at := 20 } : Conversation) ∈
        (processTurn defaultConfig (finalAgent "ok") oneConvDB "alice" (some 1) "hi" 20).2.conversations ∧
      (processTurn defaultConfig (finalAgent "ok") oneConvDB "alice" (some 1) "hi" 20).2.messages =
        oneConvDB.messages ++ [userRow oneConvDB 1 "alice" "hi" 20,
          assistantRow oneConvDB 1 "alice" ans recs 20] ∧
      (assistantRow oneConvDB 1 "alice" ans recs 20).created_at = 20)) :=
  ⟨by decide, by decide, by decide,
    conversation_updated_at_monotone defaultConfig (finalAgent "ok") oneConvDB
      "alice" 1 "hi" 20 ⟨1, "alice", 10, 10⟩ (by decide) (by decide) (by decide)⟩

/-! ## C7 -/

/-- C7: the reasoning↔dispatch round trips of a turn are hard-bounded by
the configured `maxToolRounds` (default 5, a small single-digit count): the
number of dispatch rounds never exceeds the bound, and an adapter that
keeps requesting tools makes the turn terminate with
`ReasoningLoopExceeded` instead of looping unboundedly. -/
theorem tool_loop_bounded (cfg : Config) (agent : Agent) (db : DB)
    (uid : String) (cid : Nat) (msg : String) (t : Nat) (conv : Conversation)
    (hmsg : ¬ msg = "") (hconv : findConversation db uid cid = some conv) :
    (∀ (ctx : List Message) (db0 : DB) (acc : List ToolCall),
      (agentLoop agent uid ctx t cfg.maxToolRounds db0 acc).rounds ≤
        cfg.maxToolRounds) ∧
    ((∀ c recs, ∃ calls, agent c recs = .toolRequest calls) →
      (processTurn cfg agent db uid (some cid) msg t).1 =
        TurnOutcome.reasoningLoopExceeded) ∧
    0 < defaultConfig.maxToolRounds ∧ defaultConfig.maxToolRounds ≤ 9 := by
  refine ⟨fun ctx db0 acc => agentLoop_rounds_le agent uid ctx t cfg.maxToolRounds db0 acc,
    ?_, by decide, by decide⟩
  intro hloopy
  rw [processTurn_some_eq cfg agent db uid cid msg t conv hmsg hconv]
  have hex := agentLoop_exceeded agent uid
    (buildContext (getConversationHistory db conv.id) cfg.historyWindow ++
      [(⟨db.nextMsgId, conv.id, uid, .user, msg, none, t⟩ : Message)]) t hloopy
    cfg.maxToolRounds (appendMessage db conv.id uid .user msg none t) []
  simp only [processResolved]
  generalize hL : agentLoop agent uid
    (buildContext (getConversationHistory db conv.id) cfg.historyWindow ++
      [(⟨db.nextMsgId, conv.id, uid, .user, msg, none, t⟩ : Message)]) t
    cfg.maxToolRounds (appendMessage db conv.id uid .user msg none t) [] = loop
  rw [hL] at hex
  obtain ⟨dec, recs, rounds, ldb⟩ := loop
  simp only at hex
  subst hex
  rfl

/-- C7 witness: the bound applied to a concrete turn driven by an adapter
that requests tools forever. -/
theorem tool_loop_bounded_witness :
    (¬ ("go" : String) = "") ∧
    findConversation oneConvDB "alice" 1 = some ⟨1, "alice", 10, 10⟩ ∧
    ((∀ (ctx : List Message) (db0 : DB) (acc : List ToolCall),
      (agentLoop loopingAgent "alice" ctx 20 defaultConfig.maxToolRounds db0 acc).rounds ≤
        defaultConfig.maxToolRounds) ∧
    ((∀ c recs, ∃ calls, loopingAgent c recs = .toolRequest calls) →
      (processTurn defaultConfig loopingAgent oneConvDB "alice" (some 1) "go" 20).1 =
        TurnOutcome.reasoningLoopExceeded) ∧
    0 < defaultConfig.maxToolRounds ∧ defaultConfig.maxToolRounds ≤ 9) :=
  ⟨by decide, by decide,
    tool_loop_bounded defaultConfig loopingAgent oneConvDB "alice" 1 "go" 20
      ⟨1, "alice", 10, 10⟩ (by decide) (by decide)⟩

/-! ## C8 -/

/-- C8: when a conversation's stored history is longer than the configured
window, the Context Builder assembles exactly the most recent `window`
messages, oldest-first (a suffix of the full ordered history), and no turn
ever removes stored messages — truncation never mutates stored history. -/
theorem context_window_truncation (db : DB) (cid : Nat) (window : Nat)
    (h : window < (getConversationHistory db cid).length) :
    (buildContext (getConversationHistory db cid) window).length = window ∧
    buildContext (getConversationHistory db cid) window <:+
      getConversationHistory db cid ∧
    ∀ (cfg : Config) (agent : Agent) (uid : String) (cid? : Option Nat)
      (msg : String) (t : Nat),
      db.messages <+: (processTurn cfg agent db uid cid? msg t).2.messages := by
  refine ⟨?_, List.drop_suffix _ _,
    fun cfg agent uid cid? msg t =>
      processTurn_messages_prefix cfg agent db uid cid? msg t⟩
  unfold buildContext
  rw [List.length_drop]
  omega

/-- C8 witness: truncation to a window of 1 on a stored history of length
2, and stability of storage across an arbitrary concrete turn. -/
theorem context_window_truncation_witness :
    1 < (getConversationHistory tieDB 1).length ∧
    ((buildContext (getConversationHistory tieDB 1) 1).length = 1 ∧
    buildContext (getConversationHistory tieDB 1) 1 <:+ getConversationHistory tieDB 1 ∧
    ∀ (cfg : Config) (agent : Agent) (uid : String) (cid? : Option Nat)
      (msg : String) (t : Nat),
      tieDB.messages <+: (processTurn cfg agent tieDB uid cid? msg t).2.messages) :=
  ⟨by decide, context_window_truncation tieDB 1 1 (by decide)⟩

/-! ## C9 -/

/-- C9: a `complete_task` call for a task id that does not resolve for the
principal returns the structured `task_not_found` error dictionary — a
value, not an exception — with the store untouched; driven through a full
turn, the error lands inside the assistant message's tool-call record and
the turn still commits with a Final answer. -/
theorem tool_error_is_data (db : DB) (uid : String) (cid : Nat)
    (msg ans : String) (t : Nat) (tid : Nat) (conv : Conversation)
    (hmsg : ¬ msg = "") (hconv : findConversation db uid cid = some conv)
    (htid : ¬ tid = 0)
    (htask : db.tasks.find? (fun tk => tk.id == tid && tk.user_id == uid) = none) :
    complete_task db uid { task_id := some tid } =
      (⟨false, "Task " ++ toString tid ++ " not found. Want me to show your current tasks?",
        none, some "task_not_found"⟩, db) ∧
    (processTurn defaultConfig (oneToolAgent "complete_task" { task_id := some tid } ans)
        db uid (some cid) msg t).1 =
      TurnOutcome.success conv.id ans
        [⟨"complete_task", { task_id := some tid },
          ⟨false, "Task " ++ toString tid ++ " not found. Want me to show your current tasks?",
            none, some "task_not_found"⟩⟩] ∧
    (processTurn defaultConfig (oneToolAgent "complete_task" { task_id := some tid } ans)
        db uid (some cid) msg t).2.messages =
      db.messages ++
        [userRow db conv.id uid msg t,
         assistantRow db conv.id uid ans
           [⟨"complete_task", { task_id := some tid },
             ⟨false, "Task " ++ toString tid ++ " not found. Want me to show your current tasks?",
               none, some "task_not_found"⟩⟩] t] := by
  have hmark : ∀ db0 : DB, db0.tasks = db.tasks →
      taskServiceMarkCompleted db0 tid uid true = (none, db0) := by
    intro db0 h0
    unfold taskServiceMarkCompleted
    rw [h0, htask]
  have hc : ∀ db0 : DB, db0.tasks = db.tasks →
      complete_task db0 uid { task_id := some tid } =
        (⟨false, "Task " ++ toString tid ++ " not found. Want me to show your current tasks?",
          none, some "task_not_found"⟩, db0) := by
    intro db0 h0
    unfold complete_task
    simp only [if_neg htid, hmark db0 h0]
  have hdisp : dispatchTool (appendMessage db conv.id uid .user msg none t) uid
      "complete_task" { task_id := some tid } t =
      (⟨false, "Task " ++ toString tid ++ " not found. Want me to show your current tasks?",
        none, some "task_not_found"⟩,
       appendMessage db conv.id uid .user msg none t) := by
    unfold dispatchTool
    rw [if_neg (by decide : ¬ ("complete_task" : String) = "add_task"), if_pos rfl]
    exact hc _ rfl
  have hloop := agentLoop_oneTool "complete_task" { task_id := some tid } ans uid
    (buildContext (getConversationHistory db conv.id) defaultConfig.historyWindow ++
      [(⟨db.nextMsgId, conv.id, uid, .user, msg, none, t⟩ : Message)]) t
    (appendMessage db conv.id uid .user msg none t) _ hdisp 3
  refine ⟨hc db rfl, ?_, ?_⟩ <;>
    rw [processTurn_some_eq defaultConfig _ db uid cid msg t conv hmsg hconv] <;>
    simp only [processResolved] <;>
    rw [show defaultConfig.maxToolRounds = 3 + 2 from rfl, hloop] <;>
    simp [appendMessage, touchConversation, userRow, assistantRow]

/-- C9 witness: the not-found tool error flowing through a committed
concrete turn against an empty `tasks` table. -/
theorem tool_error_is_data_witness :
    (¬ ("done 42" : String) = "") ∧
    findConversation bobConvDB "bob" 7 = some ⟨7, "bob", 5, 5⟩ ∧
    (¬ (42 : Nat) = 0) ∧
    bobConvDB.tasks.find? (fun tk => tk.id == 42 && tk.user_id == "bob") = none ∧
    (complete_task bobConvDB "bob" { task_id := some 42 } =
      (⟨false, "Task " ++ toString (42 : Nat) ++ " not found. Want me to show your current tasks?",
        none, some "task_not_found"⟩, bobConvDB) ∧
    (processTurn defaultConfig (oneToolAgent "complete_task" { task_id := some 42 } "no such task")
        bobConvDB "bob" (some 7) "done 42" 9).1 =
      TurnOutcome.success 7 "no such task"
        [⟨"complete_task", { task_id := some 42 },
          ⟨false, "Task " ++ toString (42 : Nat) ++ " not found. Want me to show your current tasks?",
            none, some "task_not_found"⟩⟩] ∧
    (processTurn defaultConfig (oneToolAgent "complete_task" { task_id := some 42 } "no such task")
        bobConvDB "bob" (some 7) "done 42" 9).2.messages =
      bobConvDB.messages ++
        [userRow bobConvDB 7 "bob" "done 42" 9,
         assistantRow bobConvDB 7 "bob" "no such task"
           [⟨"complete_task", { task_id := some 42 },
             ⟨false, "Task " ++ toString (42 : Nat) ++ " not found. Want me to show your current tasks?",
               none, some "task_not_found"⟩⟩] 9]) :=
  ⟨by decide, by decide, by decide, by decide,
    tool_error_is_data bobConvDB "bob" 7 "done 42" "no such task" 9 42 ⟨7, "bob", 5, 5⟩
      (by decide) (by decide) (by decide) (by decide)⟩

/-! ## C10 -/

instance (db : DB) : Decidable (NoOrphans db) := by
  unfold NoOrphans; exact inferInstance

/-- C10: in every schema-level state reachable from a state without orphan
messages, every message row references an existing conversation row (the
NOT NULL foreign key admits no other insert), and deleting a conversation
cascades, so afterwards no message of that conversation remains. -/
theorem no_orphan_messages (db db2 : DB)
    (h : Relation.ReflTransGen SchemaStep db db2) (hno : NoOrphans db) :
    NoOrphans db2 ∧
    ∀ cid, ∀ m ∈ (sqlDeleteConversation db2 cid).messages,
      m.conversation_id ≠ cid := by
  constructor
  · induction h with
    | refl => exact hno
    | tail h1 h2 ih => exact schemaStep_noOrphans _ _ h2 ih
  · intro cid m hm
    have h2 := (List.mem_filter.mp hm).2
    simpa using h2

/-- C10 witness: referential integrity after a concrete schema step. -/
theorem no_orphan_messages_witness :
    NoOrphans oneConvDB ∧
    (NoOrphans (sqlInsertConversation oneConvDB ⟨2, "carol", 1, 1⟩) ∧
    ∀ cid, ∀ m ∈ (sqlDeleteConversation
        (sqlInsertConversation oneConvDB ⟨2, "carol", 1, 1⟩) cid).messages,
      m.conversation_id ≠ cid) :=
  ⟨by decide,
    no_orphan_messages oneConvDB _
      (Relation.ReflTransGen.single
        (SchemaStep.insertConversation oneConvDB ⟨2, "carol", 1, 1⟩))
      (by decide)⟩

end Chatbot
